import Mathlib

/-!
halal-check-pro: the decision-and-state layer of `src/App.jsx`.

A shallow embedding of the classification rules (`classifyHalal`,
`extractHarmfulAdditives`), the product cache (`ProductAPI.fetchProduct`) and the two
stores (`useFavorites`, `useHistory`), followed by the properties proved about them.

JavaScript strings are embedded as Lean strings (sequences of code points).  The
string primitives of the JavaScript runtime that the source calls but does not define
(`toLowerCase`, `toUpperCase`, the case folding of an `/i` regular expression) are
collected in a `Host` record and every definition takes the host as an argument, so
the theorems hold for whatever the runtime computes.
-/

namespace HalalCheck

/-! ## Host primitives and string helpers -/

/-- String primitives of the JavaScript runtime used by the source:
`String.prototype.toLowerCase`, `String.prototype.toUpperCase`, and the per-character
case folding applied by a regular expression carrying the `i` flag. -/
structure Host where
  /-- `s.toLowerCase()` -/
  toLowerCase : String → String
  /-- `s.toUpperCase()` -/
  toUpperCase : String → String
  /-- Case folding of one character under the `i` flag. -/
  canonicalize : Char → Char

/-- A host that folds the letters A to Z only and leaves every other character alone.
On strings whose cased letters are all ASCII it computes what the JavaScript runtime
computes; it is used to evaluate the definitions on concrete inputs. -/
def asciiHost : Host where
  toLowerCase := fun s => ⟨s.data.map Char.toLower⟩
  toUpperCase := fun s => ⟨s.data.map Char.toUpper⟩
  canonicalize := Char.toUpper

/-- Does `s` begin with `p`? -/
def startsWithChars : List Char → List Char → Bool
  | [], _ => true
  | _ :: _, [] => false
  | a :: p, b :: s => a == b && startsWithChars p s

/-- Does `p` occur in `s` as a contiguous run of characters? -/
def includesChars (p : List Char) : List Char → Bool
  | [] => startsWithChars p []
  | c :: s => startsWithChars p (c :: s) || includesChars p s

/-- `text.includes(key)` -/
def includes (text key : String) : Bool :=
  includesChars key.data text.data

/-- Does `s` begin with `p` once both are case folded character by character? -/
def startsWithFolded (H : Host) : List Char → List Char → Bool
  | [], _ => true
  | _ :: _, [] => false
  | a :: p, b :: s => H.canonicalize a == H.canonicalize b && startsWithFolded H p s

/-- Does the literal `p` match somewhere in `s`, ignoring case? -/
def searchFolded (H : Host) (p : List Char) : List Char → Bool
  | [] => startsWithFolded H p []
  | c :: s => startsWithFolded H p (c :: s) || searchFolded H p s

/-! ## Classification logic -/

def HARAM_KEYWORDS : List String := [
  "gelatin", "gélatine", "gelatina", "جلاتين", "جيلاتين",
  "e441", "pork", "porc", "خنزير", "lard", "saindoux",
  "alcohol", "alcool", "ethanol", "كحول", "wine", "نبيذ", "beer", "بيرة",
  "rennet", "présure", "منفحة حيوانية"
]

def DOUBTFUL_KEYWORDS : List String := [
  "e120", "cochineal", "carmine", "قرمزي",
  "e471", "e472", "e473", "e481", "e482",
  "emulsifier", "مستحلب", "flavour", "نكهة"
]

def HARMFUL_E : List String := [
  "E102", "E110", "E120", "E122", "E124", "E129",
  "E211", "E220", "E250", "E251", "E621"
]

/-- The alternatives of the regular expression `/vegan|نباتي|végane/i`. -/
def VEGAN_ALTERNATIVES : List String := ["vegan", "نباتي", "végane"]

/-- `/vegan|نباتي|végane/i.test(l)`: some alternative matches somewhere in `l`,
ignoring case. -/
def veganTest (H : Host) (l : String) : Bool :=
  VEGAN_ALTERNATIVES.any (fun p => searchFolded H p.data l.data)

/-- The object returned by `classifyHalal`. -/
structure Classification where
  verdict : String
  reasons : List String
  confidence : String
deriving DecidableEq, Repr

/-- `(ingredientsText || "")`, with `none` standing for `null` and `undefined`. -/
def orEmpty : Option String → String
  | none => ""
  | some s => if s = "" then "" else s

/-- `classifyHalal(ingredientsText, labels, additives)`. -/
def classifyHalal (H : Host) (ingredientsText : Option String)
    (labels additives : List String) : Classification :=
  let text := H.toLowerCase (orEmpty ingredientsText)
  let hasVegan := labels.any (fun l => veganTest H l)
  if hasVegan then
    { verdict := "halal", reasons := ["Vegan label detected"], confidence := "high" }
  else
    match HARAM_KEYWORDS.find? (fun keyword => includes text (H.toLowerCase keyword)) with
    | some keyword =>
      { verdict := "haram", reasons := ["Found: " ++ keyword], confidence := "high" }
    | none =>
      let doubtfulFound :=
        DOUBTFUL_KEYWORDS.filter (fun k => includes text (H.toLowerCase k))
      if doubtfulFound.length > 0 then
        { verdict := "doubtful",
          reasons := doubtfulFound.map (fun k => "Doubtful: " ++ k),
          confidence := "medium" }
      else
        let harmfulFound :=
          additives.filter (fun a => HARMFUL_E.any (fun e => includes (H.toUpperCase a) e))
        let reasons :=
          if harmfulFound.length > 0 then ["Contains potentially harmful additives"] else []
        { verdict := "halal",
          reasons := reasons ++ ["No haram/doubtful markers detected"],
          confidence := "medium" }

/-- `s.split(":")` on the characters of `s`: the pieces between the colons, in order. -/
def splitColon : List Char → List (List Char)
  | [] => [[]]
  | c :: s =>
    if c = ':' then [] :: splitColon s
    else
      match splitColon s with
      | [] => [[c]]
      | seg :: rest => (c :: seg) :: rest

/-- `tag.split(":").pop()?.toUpperCase()` -/
def tagCode (H : Host) (tag : String) : Option String :=
  ((splitColon tag.data).getLast?).map (fun seg => H.toUpperCase ⟨seg⟩)

/-- `found.add(code)` on a `Set` kept as the list of its members in insertion order. -/
def setAdd (found : List String) (code : String) : List String :=
  if code ∈ found then found else found ++ [code]

/-- The body of the loop of `extractHarmfulAdditives` for one tag. -/
def extractStep (H : Host) (found : List String) (tag : String) : List String :=
  match tagCode H tag with
  | some code => if code ≠ "" ∧ code ∈ HARMFUL_E then setAdd found code else found
  | none => found

/-- `extractHarmfulAdditives(additives_tags)`, with `none` standing for `null` and
`undefined`; the result is `Array.from(found)`. -/
def extractHarmfulAdditives (H : Host) (additives_tags : Option (List String)) : List String :=
  (additives_tags.getD []).foldl (extractStep H) []

/-! ## Product cache -/

def CACHE_DURATION : Int := 24 * 60 * 60 * 1000

def MAX_HISTORY : Nat := 50

/-- A parsed response body; `product = none` stands for a missing or falsy `product`. -/
structure Json (π : Type) where
  product : Option π

/-- One entry of `ProductAPI.cache`. -/
structure CacheEntry (π : Type) where
  data : Json π
  timestamp : Int

/-- `ProductAPI.cache`: the object mapping a barcode to its entry. -/
abbrev Cache (π : Type) := String → Option (CacheEntry π)

/-- `this.cache[barcode] = entry` -/
def Cache.set {π : Type} (cache : Cache π) (barcode : String) (entry : CacheEntry π) : Cache π :=
  fun b => if b = barcode then some entry else cache b

/-- What `fetch(url)` resolves to: the `ok` flag and the outcome of `response.json()`,
which either rejects with a message or yields the parsed body (`none` for `null`). -/
structure Response (π : Type) where
  ok : Bool
  json : Except String (Option (Json π))

/-- The network: `fetch(url)` either rejects with a message or resolves to a response. -/
abbrev Network (π : Type) := String → Except String (Response π)

/-- Outcome of one call of `fetchProduct`: the value returned or the message of the
error thrown, the cache afterwards, and the URLs requested from the network. -/
structure FetchResult (π : Type) where
  value : Except String (Json π)
  cache : Cache π
  requests : List String

/-- The URL built by `fetchProduct`. -/
def productUrl (barcode : String) : String :=
  "https://world.openfoodfacts.org/api/v2/product/" ++ barcode ++ ".json"

/-- `ProductAPI.fetchProduct(barcode)` run on the cache `cache`; `now` is the reading of
`Date.now()` at the freshness test and `later` its reading when the entry is stored. -/
def fetchProduct {π : Type} (cache : Cache π) (net : Network π) (now later : Int)
    (barcode : String) : FetchResult π :=
  match cache barcode with
  | some cached =>
    if now - cached.timestamp < CACHE_DURATION then
      { value := .ok cached.data, cache := cache, requests := [] }
    else fromNetwork
  | none => fromNetwork
where
  /-- The part of `fetchProduct` after the cache test. -/
  fromNetwork : FetchResult π :=
    let url := productUrl barcode
    match net url with
    | .error e => { value := .error e, cache := cache, requests := [url] }
    | .ok response =>
      if !response.ok then
        { value := .error "API_ERROR", cache := cache, requests := [url] }
      else
        match response.json with
        | .error e => { value := .error e, cache := cache, requests := [url] }
        | .ok none => { value := .error "NOT_FOUND", cache := cache, requests := [url] }
        | .ok (some json) =>
          match json.product with
          | none => { value := .error "NOT_FOUND", cache := cache, requests := [url] }
          | some _ =>
            { value := .ok json,
              cache := cache.set barcode { data := json, timestamp := later },
              requests := [url] }

/-- `ProductAPI.clearCache()` -/
def clearCache {π : Type} (_cache : Cache π) : Cache π :=
  fun _ => none

/-! ## Favorites and history -/

/-- The record built by `handleSearch` and kept in both stores: the barcode, the rest
of the record (`p`, `cls`, `additives`) and the time stamp. -/
structure ProductData (α : Type) where
  code : String
  body : α
  timestamp : Int
deriving DecidableEq, Repr

/-- The state update of `addFavorite(product)`. -/
def addFavorite {α : Type} (prev : List (ProductData α)) (product : ProductData α) :
    List (ProductData α) :=
  let newFavorites := prev.filter (fun f => f.code != product.code)
  product :: newFavorites

/-- The state update of `removeFavorite(code)`. -/
def removeFavorite {α : Type} (prev : List (ProductData α)) (code : String) :
    List (ProductData α) :=
  prev.filter (fun f => f.code != code)

/-- `isFavorite(code)` -/
def isFavorite {α : Type} (favorites : List (ProductData α)) (code : String) : Bool :=
  favorites.any (fun f => f.code == code)

/-- The state update of `addToHistory(product)`; `now` is the reading of `Date.now()`. -/
def addToHistory {α : Type} (prev : List (ProductData α)) (product : ProductData α)
    (now : Int) : List (ProductData α) :=
  let newHistory := prev.filter (fun h => h.code != product.code)
  let newHistory := { product with timestamp := now } :: newHistory
  newHistory.take MAX_HISTORY

/-- The state update of `clearHistory()`. -/
def clearHistory {α : Type} (_prev : List (ProductData α)) : List (ProductData α) :=
  []

/-- An operation on the history store. -/
inductive HistoryOp (α : Type) where
  | add (product : ProductData α) (now : Int)
  | clear

/-- Run one operation on the history. -/
def HistoryOp.run {α : Type} (h : List (ProductData α)) : HistoryOp α → List (ProductData α)
  | .add product now => addToHistory h product now
  | .clear => clearHistory h

/-- An operation on the favorites store. -/
inductive FavoritesOp (α : Type) where
  | add (product : ProductData α)
  | remove (code : String)

/-- Run one operation on the favorites. -/
def FavoritesOp.run {α : Type} (f : List (ProductData α)) :
    FavoritesOp α → List (ProductData α)
  | .add product => addFavorite f product
  | .remove code => removeFavorite f code

/-! ## Specification vocabulary -/

/-- The trailing token of a tag in the words of the specification: `tok` is the part of
`tag` after its last ":" (all of `tag` when it has no ":"). -/
def IsTrailingToken (tag tok : List Char) : Prop :=
  ':' ∉ tok ∧ (tag = tok ∨ ∃ pre, tag = pre ++ ':' :: tok)

/-- Position in `tags` of the first tag whose upper-cased trailing token is `c`
(the length of `tags` when there is none). -/
def firstTagIndex (H : Host) (tags : List String) (c : String) : Nat :=
  tags.findIdx (fun tag => decide (tagCode H tag = some c))

/-- No two entries of a collection share a code. -/
def UniqueCodes {α : Type} (l : List (ProductData α)) : Prop :=
  (l.map (fun e => e.code)).Nodup

/-! ## Facts about the string helpers -/

theorem startsWithChars_iff (p s : List Char) :
    startsWithChars p s = true ↔ ∃ t, p ++ t = s := by
  induction p generalizing s with
  | nil => simp [startsWithChars]
  | cons a p ih =>
    cases s with
    | nil => simp [startsWithChars]
    | cons b s =>
      simp only [startsWithChars, Bool.and_eq_true, beq_iff_eq, ih, List.cons_append,
        List.cons.injEq]
      constructor
      · rintro ⟨rfl, t, rfl⟩
        exact ⟨t, rfl, rfl⟩
      · rintro ⟨t, rfl, rfl⟩
        exact ⟨rfl, t, rfl⟩

theorem includesChars_iff (p s : List Char) :
    includesChars p s = true ↔ p <:+: s := by
  induction s with
  | nil =>
    simp only [includesChars, startsWithChars_iff]
    constructor
    · rintro ⟨t, h⟩
      exact ⟨[], t, by simpa using h⟩
    · rintro ⟨a, b, h⟩
      have h1 : a = [] ∧ p = [] ∧ b = [] := by simpa [List.append_eq_nil] using h
      exact ⟨[], by simp [h1.2.1]⟩
  | cons c s ih =>
    simp only [includesChars, Bool.or_eq_true, startsWithChars_iff, ih]
    constructor
    · rintro (⟨t, h⟩ | ⟨a, b, h⟩)
      · exact ⟨[], t, by simpa using h⟩
      · exact ⟨c :: a, b, by simp [← h]⟩
    · rintro ⟨a, b, h⟩
      cases a with
      | nil => exact Or.inl ⟨b, by simpa using h⟩
      | cons a0 a =>
        simp only [List.cons_append, List.cons.injEq] at h
        exact Or.inr ⟨a, b, h.2⟩

theorem includes_iff (text key : String) :
    includes text key = true ↔ key.data <:+: text.data :=
  includesChars_iff key.data text.data

theorem includes_eq_false_iff (text key : String) :
    includes text key = false ↔ ¬ key.data <:+: text.data := by
  rw [← includes_iff]; simp

/-- The first element of a list satisfying a test, with the elements before it. -/
theorem find?_first {α : Type} (p : α → Bool) (l : List α) (h : ∃ x ∈ l, p x = true) :
    ∃ k before after, l = before ++ k :: after ∧ p k = true ∧
      (∀ j ∈ before, p j = false) ∧ l.find? p = some k := by
  induction l with
  | nil => simp at h
  | cons a l ih =>
    by_cases ha : p a = true
    · exact ⟨a, [], l, rfl, ha, by simp, by simp [List.find?, ha]⟩
    · have h2 : ∃ x ∈ l, p x = true := by
        obtain ⟨x, hx, hpx⟩ := h
        rcases List.mem_cons.1 hx with rfl | hx
        · exact absurd hpx ha
        · exact ⟨x, hx, hpx⟩
      obtain ⟨k, before, after, hl, hk, hb, hf⟩ := ih h2
      refine ⟨k, a :: before, after, by simp [hl], hk, ?_, ?_⟩
      · intro j hj
        rcases List.mem_cons.1 hj with rfl | hj
        · simpa using ha
        · exact hb j hj
      · simp [List.find?, ha, hf]

/-! ## Classification: the four rules -/

/-- C1. When the lower-cased ingredient text contains some entry of `HARAM_KEYWORDS`
and no label matches the vegan pattern, `classifyHalal` returns verdict "haram",
confidence "high" and the single reason "Found: k", where `k` is the earliest entry of
`HARAM_KEYWORDS` contained in the lower-cased text.  (`hfix`: the listed keywords are
already in lower case, so the runtime leaves them unchanged.) -/
theorem classifyHalal_haram (H : Host)
    (hfix : ∀ k ∈ HARAM_KEYWORDS, H.toLowerCase k = k)
    (ingredientsText : Option String) (labels additives : List String)
    (hveg : ∀ l ∈ labels, veganTest H l = false)
    (hex : ∃ k ∈ HARAM_KEYWORDS, k.data <:+: (H.toLowerCase (orEmpty ingredientsText)).data) :
    ∃ k before after, HARAM_KEYWORDS = before ++ k :: after ∧
      k.data <:+: (H.toLowerCase (orEmpty ingredientsText)).data ∧
      (∀ j ∈ before, ¬ j.data <:+: (H.toLowerCase (orEmpty ingredientsText)).data) ∧
      classifyHalal H ingredientsText labels additives =
        { verdict := "haram", reasons := ["Found: " ++ k], confidence := "high" } := by
  have hv : labels.any (fun l => veganTest H l) = false := by
    simpa [List.any_eq_false] using hveg
  have hex2 : ∃ k ∈ HARAM_KEYWORDS,
      (fun keyword => includes (H.toLowerCase (orEmpty ingredientsText))
        (H.toLowerCase keyword)) k = true := by
    obtain ⟨k, hk, hin⟩ := hex
    exact ⟨k, hk, by simpa [hfix k hk, includes_iff] using hin⟩
  obtain ⟨k, before, after, hl, hk, hb, hf⟩ := find?_first _ _ hex2
  have hkm : k ∈ HARAM_KEYWORDS := by rw [hl]; simp
  refine ⟨k, before, after, hl, ?_, ?_, ?_⟩
  · simpa [hfix k hkm, includes_iff] using hk
  · intro j hj
    have hjm : j ∈ HARAM_KEYWORDS := by rw [hl]; simp [hj]
    have := hb j hj
    simpa [hfix j hjm, includes_eq_false_iff] using this
  · simp only [classifyHalal, hv, hf]
    simp

/-- Witness of C1 on the first example scenario of the specification. -/
theorem classifyHalal_haram_witness :
    (∀ k ∈ HARAM_KEYWORDS, asciiHost.toLowerCase k = k) ∧
    (∃ k before after, HARAM_KEYWORDS = before ++ k :: after ∧
      k.data <:+:
        (asciiHost.toLowerCase (orEmpty (some "Contains gelatin and sugar"))).data ∧
      (∀ j ∈ before, ¬ j.data <:+:
        (asciiHost.toLowerCase (orEmpty (some "Contains gelatin and sugar"))).data) ∧
      classifyHalal asciiHost (some "Contains gelatin and sugar") [] [] =
        { verdict := "haram", reasons := ["Found: " ++ k], confidence := "high" }) :=
  ⟨by decide,
    classifyHalal_haram asciiHost (by decide) (some "Contains gelatin and sugar") [] []
      (by simp) ⟨"gelatin", by decide, (includes_iff _ _).1 (by decide)⟩⟩

/-- C2. When some label matches the vegan pattern, `classifyHalal` returns exactly
verdict "halal", confidence "high", reasons ["Vegan label detected"], whatever the
ingredient text and the additives are. -/
theorem classifyHalal_vegan (H : Host) (ingredientsText : Option String)
    (labels additives : List String)
    (hveg : ∃ l ∈ labels, veganTest H l = true) :
    classifyHalal H ingredientsText labels additives =
      { verdict := "halal", reasons := ["Vegan label detected"], confidence := "high" } := by
  have hv : labels.any (fun l => veganTest H l) = true := by
    simpa [List.any_eq_true] using hveg
  simp only [classifyHalal, hv]
  simp

/-- Witness of C2: a vegan label next to a text that names pork. -/
theorem classifyHalal_vegan_witness :
    (∃ l ∈ ["en:Vegan"], veganTest asciiHost l = true) ∧
    classifyHalal asciiHost (some "water, pork gelatin, e471") ["en:Vegan"] ["en:e102"] =
      { verdict := "halal", reasons := ["Vegan label detected"], confidence := "high" } :=
  ⟨⟨"en:Vegan", by simp, by decide⟩,
    classifyHalal_vegan asciiHost (some "water, pork gelatin, e471") ["en:Vegan"] ["en:e102"]
      ⟨"en:Vegan", by simp, by decide⟩⟩

/-- The haram scan finds nothing when no keyword occurs in the lower-cased text. -/
theorem find?_haram_none (H : Host)
    (hfix : ∀ k ∈ HARAM_KEYWORDS, H.toLowerCase k = k) (text : String)
    (hno : ∀ k ∈ HARAM_KEYWORDS, ¬ k.data <:+: text.data) :
    HARAM_KEYWORDS.find? (fun keyword => includes text (H.toLowerCase keyword)) = none := by
  rw [List.find?_eq_none]
  intro k hk
  rw [hfix k hk, Bool.not_eq_true, includes_eq_false_iff]
  exact hno k hk

/-- The doubtful scan keeps exactly the keywords that occur in the lower-cased text. -/
theorem filter_doubtful (H : Host)
    (hfix : ∀ k ∈ DOUBTFUL_KEYWORDS, H.toLowerCase k = k) (text : String) :
    DOUBTFUL_KEYWORDS.filter (fun k => includes text (H.toLowerCase k)) =
      DOUBTFUL_KEYWORDS.filter (fun k => decide (k.data <:+: text.data)) := by
  apply List.filter_congr
  intro k hk
  rw [hfix k hk]
  by_cases h : k.data <:+: text.data
  · simp [h, (includes_iff text k).2 h]
  · simp [h, (includes_eq_false_iff text k).2 h]

/-- C3. When the lower-cased text contains no entry of `HARAM_KEYWORDS` and at least one
entry of `DOUBTFUL_KEYWORDS`, and no label matches the vegan pattern, `classifyHalal`
returns verdict "doubtful", confidence "medium", and as reasons the entries of
`DOUBTFUL_KEYWORDS` contained in the lower-cased text, in list order, each with
"Doubtful: " in front.  (`hfixH`, `hfixD`: the listed keywords are already in lower
case.) -/
theorem classifyHalal_doubtful (H : Host)
    (hfixH : ∀ k ∈ HARAM_KEYWORDS, H.toLowerCase k = k)
    (hfixD : ∀ k ∈ DOUBTFUL_KEYWORDS, H.toLowerCase k = k)
    (ingredientsText : Option String) (labels additives : List String)
    (hveg : ∀ l ∈ labels, veganTest H l = false)
    (hno : ∀ k ∈ HARAM_KEYWORDS,
      ¬ k.data <:+: (H.toLowerCase (orEmpty ingredientsText)).data)
    (hex : ∃ k ∈ DOUBTFUL_KEYWORDS,
      k.data <:+: (H.toLowerCase (orEmpty ingredientsText)).data) :
    classifyHalal H ingredientsText labels additives =
      { verdict := "doubtful",
        reasons := (DOUBTFUL_KEYWORDS.filter (fun k =>
          decide (k.data <:+: (H.toLowerCase (orEmpty ingredientsText)).data))).map
            (fun k => "Doubtful: " ++ k),
        confidence := "medium" } := by
  have hv : labels.any (fun l => veganTest H l) = false := by
    simpa [List.any_eq_false] using hveg
  have hlen : 0 < (DOUBTFUL_KEYWORDS.filter (fun k =>
      decide (k.data <:+: (H.toLowerCase (orEmpty ingredientsText)).data))).length := by
    obtain ⟨k, hk, hin⟩ := hex
    apply List.length_pos_of_mem (a := k)
    simp [List.mem_filter, hk, hin]
  simp only [classifyHalal, hv, find?_haram_none H hfixH _ hno, filter_doubtful H hfixD]
  simp [hlen]

/-- Witness of C3 on the second example scenario of the specification. -/
theorem classifyHalal_doubtful_witness :
    (∀ k ∈ HARAM_KEYWORDS, asciiHost.toLowerCase k = k) ∧
    (∀ k ∈ DOUBTFUL_KEYWORDS, asciiHost.toLowerCase k = k) ∧
    (∀ k ∈ HARAM_KEYWORDS,
      ¬ k.data <:+: (asciiHost.toLowerCase (orEmpty (some "water, salt, E471"))).data) ∧
    classifyHalal asciiHost (some "water, salt, E471") [] [] =
      { verdict := "doubtful",
        reasons := (DOUBTFUL_KEYWORDS.filter (fun k =>
          decide (k.data <:+:
            (asciiHost.toLowerCase (orEmpty (some "water, salt, E471"))).data))).map
              (fun k => "Doubtful: " ++ k),
        confidence := "medium" } :=
  ⟨by decide, by decide, by decide,
    classifyHalal_doubtful asciiHost (by decide) (by decide) (some "water, salt, E471") [] []
      (by simp) (by decide) ⟨"e471", by decide, (includes_iff _ _).1 (by decide)⟩⟩

/-- The default rule as the function computes it.  When the lower-cased text (the empty
string for an empty, null or undefined text) contains no entry of `HARAM_KEYWORDS` and
none of `DOUBTFUL_KEYWORDS`, and no label matches the vegan pattern, `classifyHalal`
returns verdict "halal" with confidence "medium" and the last reason is
"No haram/doubtful markers detected"; that reason is the only one when no upper-cased
additive tag contains an entry of `HARMFUL_E` as a substring, which is the test the
function applies and not equality with the trailing token.  A null or undefined text
gives the same result as the empty text.  (`hfixH`, `hfixD`: the listed keywords are
already in lower case.) -/
theorem classifyHalal_default (H : Host)
    (hfixH : ∀ k ∈ HARAM_KEYWORDS, H.toLowerCase k = k)
    (hfixD : ∀ k ∈ DOUBTFUL_KEYWORDS, H.toLowerCase k = k)
    (ingredientsText : Option String) (labels additives : List String)
    (hveg : ∀ l ∈ labels, veganTest H l = false)
    (hnoH : ∀ k ∈ HARAM_KEYWORDS,
      ¬ k.data <:+: (H.toLowerCase (orEmpty ingredientsText)).data)
    (hnoD : ∀ k ∈ DOUBTFUL_KEYWORDS,
      ¬ k.data <:+: (H.toLowerCase (orEmpty ingredientsText)).data) :
    (classifyHalal H ingredientsText labels additives).verdict = "halal" ∧
    (classifyHalal H ingredientsText labels additives).confidence = "medium" ∧
    (classifyHalal H ingredientsText labels additives).reasons.getLast? =
      some "No haram/doubtful markers detected" ∧
    ((∀ a ∈ additives, ∀ e ∈ HARMFUL_E, ¬ e.data <:+: (H.toUpperCase a).data) →
      (classifyHalal H ingredientsText labels additives).reasons =
        ["No haram/doubtful markers detected"]) ∧
    classifyHalal H none labels additives = classifyHalal H (some "") labels additives := by
  have hv : labels.any (fun l => veganTest H l) = false := by
    simpa [List.any_eq_false] using hveg
  have hd : DOUBTFUL_KEYWORDS.filter (fun k =>
      decide (k.data <:+: (H.toLowerCase (orEmpty ingredientsText)).data)) = [] := by
    rw [List.filter_eq_nil_iff]
    intro k hk
    simpa using hnoD k hk
  refine ⟨?_, ?_, ?_, ?_, rfl⟩
  · simp only [classifyHalal, hv, find?_haram_none H hfixH _ hnoH, filter_doubtful H hfixD, hd]
    simp
  · simp only [classifyHalal, hv, find?_haram_none H hfixH _ hnoH, filter_doubtful H hfixD, hd]
    simp
  · simp only [classifyHalal, hv, find?_haram_none H hfixH _ hnoH, filter_doubtful H hfixD, hd]
    simp
  · intro hadd
    have ha : additives.filter (fun a =>
        HARMFUL_E.any (fun e => includes (H.toUpperCase a) e)) = [] := by
      rw [List.filter_eq_nil_iff]
      intro a ha
      simp only [List.any_eq_true, not_exists, not_and, Bool.not_eq_true]
      intro e he
      exact (includes_eq_false_iff _ _).2 (hadd a ha e he)
    simp only [classifyHalal, hv, find?_haram_none H hfixH _ hnoH, filter_doubtful H hfixD,
      hd, ha]
    simp

/-- The default rule on the fourth example scenario of the specification. -/
theorem classifyHalal_default_witness :
    (classifyHalal asciiHost (some "water, salt") [] []).verdict = "halal" ∧
    (classifyHalal asciiHost (some "water, salt") [] []).confidence = "medium" ∧
    (classifyHalal asciiHost (some "water, salt") [] []).reasons.getLast? =
      some "No haram/doubtful markers detected" ∧
    ((∀ a ∈ ([] : List String), ∀ e ∈ HARMFUL_E,
        ¬ e.data <:+: (asciiHost.toUpperCase a).data) →
      (classifyHalal asciiHost (some "water, salt") [] []).reasons =
        ["No haram/doubtful markers detected"]) ∧
    classifyHalal asciiHost none [] [] = classifyHalal asciiHost (some "") [] [] :=
  classifyHalal_default asciiHost (by decide) (by decide) (some "water, salt") [] []
    (by simp) (by decide) (by decide)

/-! ## History and favorites -/

theorem addToHistory_cons {α : Type} (h : List (ProductData α)) (p : ProductData α)
    (now : Int) :
    addToHistory h p now =
      { p with timestamp := now } ::
        (h.filter (fun e => e.code != p.code)).take (MAX_HISTORY - 1) := by
  simp [addToHistory, MAX_HISTORY]

/-- C5. The list produced by `addToHistory` starts with `p` stamped with the current
time, holds exactly one entry whose code is `p.code`, and continues with the entries of
`h` whose code differs from `p.code`, in their original order, cut to what fits under
the limit.  Adding A, then B, then A again to an empty history gives [A at the latest
time, B]. -/
theorem addToHistory_spec {α : Type} (h : List (ProductData α)) (p : ProductData α)
    (now : Int) :
    (addToHistory h p now).head? = some { p with timestamp := now } ∧
    (addToHistory h p now).countP (fun e => e.code == p.code) = 1 ∧
    (addToHistory h p now).tail =
      (h.filter (fun e => e.code != p.code)).take (MAX_HISTORY - 1) ∧
    (∀ (a b : ProductData α) (t1 t2 t3 : Int), a.code ≠ b.code →
      addToHistory (addToHistory (addToHistory [] a t1) b t2) a t3 =
        [{ a with timestamp := t3 }, { b with timestamp := t2 }]) := by
  refine ⟨?_, ?_, ?_, ?_⟩
  · simp [addToHistory_cons]
  · rw [addToHistory_cons, List.countP_cons]
    have h0 : ((h.filter (fun e => e.code != p.code)).take (MAX_HISTORY - 1)).countP
        (fun e => e.code == p.code) = 0 := by
      rw [List.countP_eq_zero]
      intro e he
      have hmem := List.mem_of_mem_take he
      have := (List.mem_filter.1 hmem).2
      simpa using this
    simp [h0]
  · simp [addToHistory_cons]
  · intro a b t1 t2 t3 hab
    have hba : b.code ≠ a.code := fun e => hab e.symm
    simp [addToHistory, MAX_HISTORY, hab, hba]

/-- Witness of C5: the fifth example scenario, with A = "111" and B = "222". -/
theorem addToHistory_spec_witness :
    addToHistory (addToHistory (addToHistory [] (⟨"111", (), 0⟩ : ProductData Unit) 1)
        ⟨"222", (), 0⟩ 2) ⟨"111", (), 0⟩ 3 =
      [⟨"111", (), 3⟩, ⟨"222", (), 2⟩] :=
  (addToHistory_spec ([] : List (ProductData Unit)) ⟨"111", (), 0⟩ 0).2.2.2
    ⟨"111", (), 0⟩ ⟨"222", (), 0⟩ 1 2 3 (by decide)

theorem addToHistory_length_le {α : Type} (h : List (ProductData α)) (p : ProductData α)
    (now : Int) : (addToHistory h p now).length ≤ MAX_HISTORY := by
  simp only [addToHistory, List.length_take]
  exact Nat.min_le_left _ _

theorem historyRun_length_le {α : Type} (ops : List (HistoryOp α))
    (h : List (ProductData α)) (hh : h.length ≤ MAX_HISTORY) :
    (ops.foldl HistoryOp.run h).length ≤ MAX_HISTORY := by
  induction ops generalizing h with
  | nil => simpa using hh
  | cons op ops ih =>
    rw [List.foldl_cons]
    apply ih
    cases op with
    | add product now => exact addToHistory_length_le h product now
    | clear => simp [HistoryOp.run, clearHistory]

/-- C6. Whatever the prior history (of any length) and the product, the list produced
by `addToHistory` has at most `MAX_HISTORY = 50` entries; so every history reached from
the empty one by `addToHistory` and `clearHistory` calls has at most 50 entries; and
what `addToHistory` drops is the tail of the new list beyond its first 50 entries, the
oldest ones. -/
theorem history_bounded (α : Type) :
    MAX_HISTORY = 50 ∧
    (∀ (h : List (ProductData α)) (p : ProductData α) (now : Int),
      (addToHistory h p now).length ≤ 50) ∧
    (∀ ops : List (HistoryOp α), (ops.foldl HistoryOp.run []).length ≤ 50) ∧
    (∀ (h : List (ProductData α)) (p : ProductData α) (now : Int),
      addToHistory h p now ++
          ({ p with timestamp := now } :: h.filter (fun e => e.code != p.code)).drop 50 =
        { p with timestamp := now } :: h.filter (fun e => e.code != p.code)) := by
  refine ⟨rfl, ?_, ?_, ?_⟩
  · intro h p now
    exact addToHistory_length_le h p now
  · intro ops
    exact historyRun_length_le ops [] (by simp)
  · intro h p now
    simp only [addToHistory, MAX_HISTORY]
    exact List.take_append_drop 50 _

/-- C8, as stated, fails: adding a product whose code is already a favorite and then
removing that code does not give the prior list back. -/
theorem add_remove_favorite_counterexample :
    removeFavorite (addFavorite [(⟨"111", (), 0⟩ : ProductData Unit)] ⟨"111", (), 5⟩) "111" ≠
      [⟨"111", (), 0⟩] := by
  decide

/-- C8, amended. `addFavorite(p)` followed by `removeFavorite(p.code)` yields `f` without
its entries whose code is `p.code`; that is `f` itself exactly when `f` had no entry
with the code of `p`. -/
theorem add_remove_favorite {α : Type} (f : List (ProductData α)) (p : ProductData α) :
    removeFavorite (addFavorite f p) p.code = f.filter (fun e => e.code != p.code) ∧
    (removeFavorite (addFavorite f p) p.code = f ↔ ∀ e ∈ f, e.code ≠ p.code) := by
  have h1 : removeFavorite (addFavorite f p) p.code =
      f.filter (fun e => e.code != p.code) := by
    simp [removeFavorite, addFavorite, List.filter_filter]
  refine ⟨h1, ?_⟩
  rw [h1, List.filter_eq_self]
  simp

/-! ## Product cache -/

theorem fromNetwork_requests {π : Type} (cache : Cache π) (net : Network π) (later : Int)
    (b : String) :
    (fetchProduct.fromNetwork cache net later b).requests = [productUrl b] := by
  unfold fetchProduct.fromNetwork
  simp only
  repeat' split
  all_goals rfl

/-- C7. With `cache[b] = {data: d, timestamp: t0}`, a call of `fetchProduct(b)` at time
`t` returns `d`, asks nothing of the network and leaves the cache alone when
`t - t0 < 24*60*60*1000`, and is a miss (it runs the network part and requests the
product URL) when `t - t0 >= 24*60*60*1000`, in particular at exactly 24 hours.  A
barcode without an entry is always a miss.  Such an entry is what a fetch that misses
and succeeds at time `t0` stores. -/
theorem fetchProduct_cache {π : Type} (cache : Cache π) (net : Network π) (b : String)
    (d : Json π) (t0 t later : Int)
    (hc : cache b = some { data := d, timestamp := t0 }) :
    (t - t0 < 24 * 60 * 60 * 1000 →
      (fetchProduct cache net t later b).value = Except.ok d ∧
      (fetchProduct cache net t later b).requests = [] ∧
      (fetchProduct cache net t later b).cache = cache) ∧
    (24 * 60 * 60 * 1000 ≤ t - t0 →
      fetchProduct cache net t later b = fetchProduct.fromNetwork cache net later b ∧
      (fetchProduct cache net t later b).requests = [productUrl b]) ∧
    (fetchProduct cache net (t0 + 24 * 60 * 60 * 1000) later b).requests = [productUrl b] ∧
    (∀ (c : Cache π) (b' : String), c b' = none →
      fetchProduct c net t later b' = fetchProduct.fromNetwork c net later b' ∧
      (fetchProduct c net t later b').requests = [productUrl b']) ∧
    (∀ (c : Cache π) (s : Int), c b = none →
      net (productUrl b) = Except.ok { ok := true, json := Except.ok (some d) } →
      d.product.isSome = true →
      (fetchProduct c net s t0 b).value = Except.ok d ∧
      (fetchProduct c net s t0 b).cache b = some { data := d, timestamp := t0 }) := by
  refine ⟨?_, ?_, ?_, ?_, ?_⟩
  · intro hlt
    have hlt2 : t - t0 < CACHE_DURATION := by simpa [CACHE_DURATION] using hlt
    simp [fetchProduct, hc, hlt2]
  · intro hge
    have hge2 : ¬ t - t0 < CACHE_DURATION := by
      have : CACHE_DURATION ≤ t - t0 := by simpa [CACHE_DURATION] using hge
      omega
    have h1 : fetchProduct cache net t later b =
        fetchProduct.fromNetwork cache net later b := by
      simp [fetchProduct, hc, hge2]
    exact ⟨h1, by rw [h1]; exact fromNetwork_requests cache net later b⟩
  · have hge2 : ¬ t0 + 24 * 60 * 60 * 1000 - t0 < CACHE_DURATION := by
      simp [CACHE_DURATION]
    have h1 : fetchProduct cache net (t0 + 24 * 60 * 60 * 1000) later b =
        fetchProduct.fromNetwork cache net later b := by
      simp only [fetchProduct, hc, hge2]
      simp
    rw [h1]
    exact fromNetwork_requests cache net later b
  · intro c b' hnone
    have h1 : fetchProduct c net t later b' = fetchProduct.fromNetwork c net later b' := by
      simp [fetchProduct, hnone]
    exact ⟨h1, by rw [h1]; exact fromNetwork_requests c net later b'⟩
  · intro c s hnone hnet hprod
    obtain ⟨x, hx⟩ := Option.isSome_iff_exists.1 hprod
    simp [fetchProduct, hnone, fetchProduct.fromNetwork, hnet, hx, Cache.set]

/-- Witness of C7 on the sixth example scenario: an entry for "123" stored at time 0 is
returned one hour later without a request, and 25 hours later the call goes to the
network. -/
theorem fetchProduct_cache_witness :
    ((fetchProduct (Cache.set (fun _ => none) "123" ⟨⟨some ()⟩, 0⟩)
        (fun _ => Except.error "offline") 3600000 3600000 "123").value = Except.ok ⟨some ()⟩ ∧
      (fetchProduct (Cache.set (fun _ => none) "123" ⟨⟨some ()⟩, 0⟩)
        (fun _ => Except.error "offline") 3600000 3600000 "123").requests = [] ∧
      (fetchProduct (Cache.set (fun _ => none) "123" ⟨⟨some ()⟩, 0⟩)
        (fun _ => Except.error "offline") 3600000 3600000 "123").cache =
          Cache.set (fun _ => none) "123" ⟨⟨some ()⟩, 0⟩) ∧
    (fetchProduct (Cache.set (fun _ => none) "123" ⟨⟨some ()⟩, 0⟩)
        (fun _ => Except.error "offline") 90000000 90000000 "123").requests =
      [productUrl "123"] :=
  ⟨(fetchProduct_cache (Cache.set (fun _ => none) "123" ⟨⟨some ()⟩, 0⟩)
      (fun _ => Except.error "offline") "123" ⟨some ()⟩ 0 3600000 3600000
      (by simp [Cache.set])).1 (by decide),
   ((fetchProduct_cache (Cache.set (fun _ => none) "123" ⟨⟨some ()⟩, 0⟩)
      (fun _ => Except.error "offline") "123" ⟨some ()⟩ 0 90000000 90000000
      (by simp [Cache.set])).2.1 (by decide)).2⟩

/-! ## Harmful additives -/

/-- C9. On the additive list ["en:e1200"] (polydextrose) with a text that reaches the
additive step, `classifyHalal` reports "Contains potentially harmful additives" although
the upper-cased trailing token "E1200" is not a member of `HARMFUL_E` and
`extractHarmfulAdditives` returns the empty list on the same tags: the additive test of
`classifyHalal` is substring containment of a harmful code in the whole upper-cased
tag, not equality with the trailing token. -/
theorem classifyHalal_additive_substring :
    classifyHalal asciiHost (some "water, salt") [] ["en:e1200"] =
      { verdict := "halal",
        reasons := ["Contains potentially harmful additives",
          "No haram/doubtful markers detected"],
        confidence := "medium" } ∧
    tagCode asciiHost "en:e1200" = some "E1200" ∧
    "E1200" ∉ HARMFUL_E ∧
    extractHarmfulAdditives asciiHost (some ["en:e1200"]) = [] := by
  decide

theorem splitColon_shape (s : List Char) :
    ∃ seg rest, splitColon s = seg :: rest ∧ ':' ∉ seg ∧ (rest = [] → s = seg) ∧
      (rest ≠ [] → ∃ tok, rest.getLast? = some tok ∧ ':' ∉ tok ∧
        ∃ pre, s = pre ++ ':' :: tok) := by
  induction s with
  | nil => exact ⟨[], [], rfl, by simp, by simp, by simp⟩
  | cons c s ih =>
    obtain ⟨seg, rest, hs, hseg, hnil, hcons⟩ := ih
    by_cases hc : c = ':'
    · subst hc
      refine ⟨[], seg :: rest, by simp [splitColon, hs], by simp, by simp, ?_⟩
      intro _
      by_cases hr : rest = []
      · subst hr
        exact ⟨seg, by simp, hseg, [], by simp [hnil rfl]⟩
      · obtain ⟨tok, hl, htok, pre, hpre⟩ := hcons hr
        refine ⟨tok, ?_, htok, ':' :: pre, by simp [hpre]⟩
        cases rest with
        | nil => exact absurd rfl hr
        | cons r rs => simpa using hl
    · refine ⟨c :: seg, rest, by simp [splitColon, hc, hs], ?_, ?_, ?_⟩
      · simp only [List.mem_cons, not_or]
        exact ⟨fun h => hc h.symm, hseg⟩
      · intro hr
        rw [hnil hr]
      · intro hr
        obtain ⟨tok, hl, htok, pre, hpre⟩ := hcons hr
        exact ⟨tok, hl, htok, c :: pre, by simp [hpre]⟩

/-- The last piece of `s.split(":")` is the trailing token of `s`. -/
theorem splitColon_getLast (s : List Char) :
    ∃ tok, (splitColon s).getLast? = some tok ∧ IsTrailingToken s tok := by
  obtain ⟨seg, rest, hs, hseg, hnil, hcons⟩ := splitColon_shape s
  by_cases hr : rest = []
  · subst hr
    exact ⟨seg, by simp [hs], hseg, Or.inl (hnil rfl)⟩
  · obtain ⟨tok, hl, htok, pre, hpre⟩ := hcons hr
    refine ⟨tok, ?_, htok, Or.inr ⟨pre, hpre⟩⟩
    rw [hs]
    cases rest with
    | nil => exact absurd rfl hr
    | cons r rs => simpa using hl

/-- A tag has only one trailing token. -/
theorem IsTrailingToken.unique {s t1 t2 : List Char} (h1 : IsTrailingToken s t1)
    (h2 : IsTrailingToken s t2) : t1 = t2 := by
  obtain ⟨n1, c1⟩ := h1
  obtain ⟨n2, c2⟩ := h2
  rcases c1 with rfl | ⟨p1, e1⟩
  · rcases c2 with rfl | ⟨p2, e2⟩
    · rfl
    · exact absurd (by rw [e2]; simp) n1
  · rcases c2 with rfl | ⟨p2, e2⟩
    · exact absurd (by rw [e1]; simp) n2
    · rw [e1] at e2
      rcases List.append_eq_append_iff.1 e2 with ⟨a, ha, hb⟩ | ⟨a, ha, hb⟩
      · cases a with
        | nil => simpa using hb
        | cons x a =>
          simp only [List.cons_append, List.cons.injEq] at hb
          exact absurd (by rw [hb.2]; simp) n1
      · cases a with
        | nil => simpa using hb.symm
        | cons x a =>
          simp only [List.cons_append, List.cons.injEq] at hb
          exact absurd (by rw [hb.2]; simp) n2

/-- `tagCode` is the upper-cased trailing token of the tag. -/
theorem tagCode_spec (H : Host) (tag : String) :
    ∃ tok : String, IsTrailingToken tag.data tok.data ∧
      tagCode H tag = some (H.toUpperCase tok) := by
  obtain ⟨tok, hl, ht⟩ := splitColon_getLast tag.data
  exact ⟨⟨tok⟩, ht, by simp [tagCode, hl]⟩

theorem tagCode_eq_some_iff (H : Host) (tag c : String) :
    tagCode H tag = some c ↔
      ∃ tok : String, IsTrailingToken tag.data tok.data ∧ H.toUpperCase tok = c := by
  obtain ⟨tok, ht, hc⟩ := tagCode_spec H tag
  constructor
  · intro h
    rw [hc] at h
    exact ⟨tok, ht, Option.some.inj h⟩
  · rintro ⟨tok2, ht2, rfl⟩
    have hd : tok.data = tok2.data := ht.unique ht2
    have : tok = tok2 := String.ext hd
    rw [hc, this]

theorem firstTagIndex_append_of_mem (H : Host) (tags : List String) (tag c : String)
    (h : ∃ t ∈ tags, tagCode H t = some c) :
    firstTagIndex H (tags ++ [tag]) c = firstTagIndex H tags c ∧
      firstTagIndex H tags c < tags.length := by
  have hlt : firstTagIndex H tags c < tags.length := by
    apply List.findIdx_lt_length_of_exists
    obtain ⟨t, ht, hc⟩ := h
    exact ⟨t, ht, by simpa using hc⟩
  refine ⟨?_, hlt⟩
  unfold firstTagIndex at hlt ⊢
  rw [List.findIdx_append, if_pos hlt]

theorem firstTagIndex_append_of_not_mem (H : Host) (tags : List String) (tag c : String)
    (h : ∀ t ∈ tags, tagCode H t ≠ some c) (ht : tagCode H tag = some c) :
    firstTagIndex H (tags ++ [tag]) c = tags.length := by
  have hlen : tags.findIdx (fun t => decide (tagCode H t = some c)) = tags.length := by
    apply List.findIdx_eq_length_of_false
    intro t htm
    simpa using h t htm
  unfold firstTagIndex
  rw [List.findIdx_append, hlen, if_neg (Nat.lt_irrefl _)]
  simp [List.findIdx_cons, ht]

/-- The loop of `extractHarmfulAdditives` keeps its result duplicate free, made of the
harmful codes met so far, in the order of their first tags. -/
theorem extract_invariant (H : Host) (tags : List String) :
    (tags.foldl (extractStep H) []).Nodup ∧
    (∀ c, c ∈ tags.foldl (extractStep H) [] ↔
      c ∈ HARMFUL_E ∧ ∃ t ∈ tags, tagCode H t = some c) ∧
    (tags.foldl (extractStep H) []).Pairwise
      (fun c d => firstTagIndex H tags c < firstTagIndex H tags d) := by
  induction tags using List.reverseRecOn with
  | nil => simp
  | append_singleton tags tag ih =>
    obtain ⟨hnd, hmem, hpw⟩ := ih
    rw [List.foldl_append, List.foldl_cons, List.foldl_nil]
    have hold : (tags.foldl (extractStep H) []).Pairwise
        (fun c d => firstTagIndex H (tags ++ [tag]) c < firstTagIndex H (tags ++ [tag]) d) := by
      apply hpw.imp_of_mem
      intro a b ha hb hab
      rw [(firstTagIndex_append_of_mem H tags tag a ((hmem a).1 ha).2).1,
        (firstTagIndex_append_of_mem H tags tag b ((hmem b).1 hb).2).1]
      exact hab
    have hne : ("" : String) ∉ HARMFUL_E := by decide
    cases hcode : tagCode H tag with
    | none =>
      simp only [extractStep, hcode]
      refine ⟨hnd, ?_, hold⟩
      intro c
      rw [hmem c]
      constructor
      · rintro ⟨hc, t, ht, htc⟩
        exact ⟨hc, t, by simp [ht], htc⟩
      · rintro ⟨hc, t, ht, htc⟩
        rcases List.mem_append.1 ht with ht | ht
        · exact ⟨hc, t, ht, htc⟩
        · have : t = tag := by simpa using ht
          subst this
          rw [hcode] at htc
          exact absurd htc (by simp)
    | some code =>
      simp only [extractStep, hcode]
      by_cases hh : code ≠ "" ∧ code ∈ HARMFUL_E
      · rw [if_pos hh]
        by_cases hin : code ∈ tags.foldl (extractStep H) []
        · simp only [setAdd, hin, if_true]
          refine ⟨hnd, ?_, hold⟩
          intro c
          rw [hmem c]
          constructor
          · rintro ⟨hc, t, ht, htc⟩
            exact ⟨hc, t, by simp [ht], htc⟩
          · rintro ⟨hc, t, ht, htc⟩
            rcases List.mem_append.1 ht with ht | ht
            · exact ⟨hc, t, ht, htc⟩
            · have : t = tag := by simpa using ht
              subst this
              rw [hcode] at htc
              have : code = c := Option.some.inj htc
              subst this
              exact (hmem code).1 hin
        · simp only [setAdd, hin, if_false]
          have hnone : ∀ t ∈ tags, tagCode H t ≠ some code := by
            intro t ht htc
            exact hin ((hmem code).2 ⟨hh.2, t, ht, htc⟩)
          refine ⟨?_, ?_, ?_⟩
          · rw [List.nodup_append]
            refine ⟨hnd, by simp, ?_⟩
            intro x hx hx2
            have : x = code := by simpa using hx2
            exact hin (this ▸ hx)
          · intro c
            rw [List.mem_append, hmem c]
            constructor
            · rintro (⟨hc, t, ht, htc⟩ | hc)
              · exact ⟨hc, t, by simp [ht], htc⟩
              · have : c = code := by simpa using hc
                subst this
                exact ⟨hh.2, tag, by simp, hcode⟩
            · rintro ⟨hc, t, ht, htc⟩
              rcases List.mem_append.1 ht with ht | ht
              · exact Or.inl ⟨hc, t, ht, htc⟩
              · have : t = tag := by simpa using ht
                subst this
                rw [hcode] at htc
                have : code = c := Option.some.inj htc
                exact Or.inr (by simp [this])
          · rw [List.pairwise_append]
            refine ⟨hold, by simp, ?_⟩
            intro a ha b hb
            have : b = code := by simpa using hb
            subst this
            rw [(firstTagIndex_append_of_mem H tags tag a ((hmem a).1 ha).2).1,
              firstTagIndex_append_of_not_mem H tags tag b hnone hcode]
            exact (firstTagIndex_append_of_mem H tags tag a ((hmem a).1 ha).2).2
      · rw [if_neg hh]
        refine ⟨hnd, ?_, hold⟩
        intro c
        rw [hmem c]
        constructor
        · rintro ⟨hc, t, ht, htc⟩
          exact ⟨hc, t, by simp [ht], htc⟩
        · rintro ⟨hc, t, ht, htc⟩
          rcases List.mem_append.1 ht with ht | ht
          · exact ⟨hc, t, ht, htc⟩
          · have : t = tag := by simpa using ht
            subst this
            rw [hcode] at htc
            have : code = c := Option.some.inj htc
            subst this
            exact absurd ⟨fun e => hne (e ▸ hc), hc⟩ hh

/-- C10. For every list of additive tags (a null or undefined argument counting as the
empty list), `extractHarmfulAdditives` returns a list without duplicates; a code `c` is
in it exactly when `c` is a member of `HARMFUL_E` and the upper-cased trailing token of
some tag equals `c`; and the codes stand in the order of their first matching tags. -/
theorem extractHarmfulAdditives_spec (H : Host) (additives_tags : Option (List String)) :
    (extractHarmfulAdditives H additives_tags).Nodup ∧
    (∀ c, c ∈ extractHarmfulAdditives H additives_tags ↔
      c ∈ HARMFUL_E ∧ ∃ tag ∈ additives_tags.getD [], ∃ tok : String,
        IsTrailingToken tag.data tok.data ∧ H.toUpperCase tok = c) ∧
    (extractHarmfulAdditives H additives_tags).Pairwise (fun c d =>
      firstTagIndex H (additives_tags.getD []) c <
        firstTagIndex H (additives_tags.getD []) d) ∧
    (∀ (tags : List String) (c : String) (i : Nat), firstTagIndex H tags c = i →
      i < tags.length →
      (∃ tag tok : String, tags[i]? = some tag ∧ IsTrailingToken tag.data tok.data ∧
        H.toUpperCase tok = c) ∧
      ∀ j < i, ∀ tag tok : String, tags[j]? = some tag →
        IsTrailingToken tag.data tok.data → H.toUpperCase tok ≠ c) ∧
    extractHarmfulAdditives H none = extractHarmfulAdditives H (some []) := by
  obtain ⟨hnd, hmem, hpw⟩ := extract_invariant H (additives_tags.getD [])
  refine ⟨hnd, ?_, hpw, ?_, rfl⟩
  · intro c
    unfold extractHarmfulAdditives
    rw [hmem c]
    simp only [tagCode_eq_some_iff]
  · intro tags c i hi hlt
    subst hi
    unfold firstTagIndex at hlt ⊢
    constructor
    · have hp := List.findIdx_getElem (w := hlt)
      refine ⟨tags[tags.findIdx (fun tag => decide (tagCode H tag = some c))], ?_⟩
      have hc : tagCode H (tags[tags.findIdx (fun tag => decide (tagCode H tag = some c))]) =
          some c := by simpa using hp
      obtain ⟨tok, ht, hu⟩ := (tagCode_eq_some_iff H _ c).1 hc
      exact ⟨tok, List.getElem?_eq_getElem hlt, ht, hu⟩
    · intro j hj tag tok hget ht hu
      have hjl : j < tags.length := Nat.lt_trans hj hlt
      have hnot := List.not_of_lt_findIdx hj
      have htag : tags[j] = tag := by
        rw [List.getElem?_eq_getElem hjl] at hget
        exact Option.some.inj hget
      rw [htag] at hnot
      have : tagCode H tag = some c := (tagCode_eq_some_iff H tag c).2 ⟨tok, ht, hu⟩
      simp [this] at hnot

/-- Witness of C10: a repeated code is reported once, at the place of its first tag, and
a code outside `HARMFUL_E` is left out. -/
theorem extractHarmfulAdditives_spec_witness :
    (extractHarmfulAdditives asciiHost
      (some ["en:e621", "en:e330", "en:e102", "fr:E621"])).Nodup ∧
    extractHarmfulAdditives asciiHost
      (some ["en:e621", "en:e330", "en:e102", "fr:E621"]) = ["E621", "E102"] :=
  ⟨(extractHarmfulAdditives_spec asciiHost
      (some ["en:e621", "en:e330", "en:e102", "fr:E621"])).1, by decide⟩

/-! ## Vegetarian labels -/

/-- C11. On the label list ["en:vegetarian"] the vegan test fails, so the override does
not fire: with the text "water, salt, E471" `classifyHalal` returns verdict "doubtful",
confidence "medium", and with the text "water, salt" it returns the default verdict with
confidence "medium", never the reason "Vegan label detected".  The regular expression
has the alternatives vegan, نباتي and végane only, although the comment above it
announces vegan/vegetarian labels. -/
theorem classifyHalal_vegetarian_not_detected :
    veganTest asciiHost "en:vegetarian" = false ∧
    classifyHalal asciiHost (some "water, salt, E471") ["en:vegetarian"] [] =
      { verdict := "doubtful", reasons := ["Doubtful: e471"], confidence := "medium" } ∧
    classifyHalal asciiHost (some "water, salt") ["en:vegetarian"] [] =
      { verdict := "halal", reasons := ["No haram/doubtful markers detected"],
        confidence := "medium" } := by
  decide

/-! ## Uniqueness by code -/

theorem UniqueCodes.sublist {α : Type} {l l2 : List (ProductData α)}
    (hs : List.Sublist l l2) (h : UniqueCodes l2) : UniqueCodes l :=
  List.Nodup.sublist (hs.map _) h

theorem code_not_mem_filter {α : Type} (l : List (ProductData α)) (c : String) :
    c ∉ (l.filter (fun e => e.code != c)).map (fun e => e.code) := by
  intro hc
  obtain ⟨e, he, hec⟩ := List.mem_map.1 hc
  have := (List.mem_filter.1 he).2
  simp [hec] at this

theorem uniqueCodes_cons_filter {α : Type} (l : List (ProductData α)) (p : ProductData α)
    (h : UniqueCodes l) : UniqueCodes (p :: l.filter (fun e => e.code != p.code)) := by
  unfold UniqueCodes
  rw [List.map_cons, List.nodup_cons]
  exact ⟨code_not_mem_filter l p.code, UniqueCodes.sublist (List.filter_sublist l) h⟩

theorem addFavorite_unique {α : Type} (f : List (ProductData α)) (p : ProductData α)
    (h : UniqueCodes f) : UniqueCodes (addFavorite f p) :=
  uniqueCodes_cons_filter f p h

theorem removeFavorite_unique {α : Type} (f : List (ProductData α)) (c : String)
    (h : UniqueCodes f) : UniqueCodes (removeFavorite f c) :=
  UniqueCodes.sublist (List.filter_sublist f) h

theorem addToHistory_unique {α : Type} (h : List (ProductData α)) (p : ProductData α)
    (now : Int) (hu : UniqueCodes h) : UniqueCodes (addToHistory h p now) := by
  unfold addToHistory
  apply UniqueCodes.sublist (List.take_sublist _ _)
  exact uniqueCodes_cons_filter h { p with timestamp := now } hu

theorem favoritesRun_unique {α : Type} (ops : List (FavoritesOp α))
    (f : List (ProductData α)) (h : UniqueCodes f) :
    UniqueCodes (ops.foldl FavoritesOp.run f) := by
  induction ops generalizing f with
  | nil => simpa using h
  | cons op ops ih =>
    rw [List.foldl_cons]
    apply ih
    cases op with
    | add product => exact addFavorite_unique f product h
    | remove code => exact removeFavorite_unique f code h

theorem historyRun_unique {α : Type} (ops : List (HistoryOp α))
    (l : List (ProductData α)) (h : UniqueCodes l) :
    UniqueCodes (ops.foldl HistoryOp.run l) := by
  induction ops generalizing l with
  | nil => simpa using h
  | cons op ops ih =>
    rw [List.foldl_cons]
    apply ih
    cases op with
    | add product now => exact addToHistory_unique l product now h
    | clear => simp [HistoryOp.run, clearHistory, UniqueCodes]

/-- In a collection with unique codes each code is carried by at most one entry. -/
theorem UniqueCodes.countP_le_one {α : Type} {l : List (ProductData α)}
    (h : UniqueCodes l) (c : String) : l.countP (fun e => e.code == c) ≤ 1 := by
  have h1 : ((l.map (fun e => e.code)).count c) ≤ 1 := List.nodup_iff_count_le_one.1 h c
  have h2 : (l.map (fun e => e.code)).count c = l.countP (fun e => e.code == c) := by
    rw [List.count, List.countP_map]
    rfl
  omega

/-- C12. Uniqueness by code is kept by `addFavorite`, `removeFavorite` and
`addToHistory`; so in every favorites list and every history reached from the empty
collection each code is carried by at most one entry; `isFavorite(c)` holds after
`addFavorite(p)` with `p.code = c` and fails after `removeFavorite(c)`. -/
theorem unique_codes_invariant (α : Type) :
    (∀ (f : List (ProductData α)) (p : ProductData α),
      UniqueCodes f → UniqueCodes (addFavorite f p)) ∧
    (∀ (f : List (ProductData α)) (c : String),
      UniqueCodes f → UniqueCodes (removeFavorite f c)) ∧
    (∀ (h : List (ProductData α)) (p : ProductData α) (now : Int),
      UniqueCodes h → UniqueCodes (addToHistory h p now)) ∧
    (∀ (ops : List (FavoritesOp α)) (c : String),
      UniqueCodes (ops.foldl FavoritesOp.run []) ∧
      (ops.foldl FavoritesOp.run []).countP (fun e => e.code == c) ≤ 1) ∧
    (∀ (ops : List (HistoryOp α)) (c : String),
      UniqueCodes (ops.foldl HistoryOp.run []) ∧
      (ops.foldl HistoryOp.run []).countP (fun e => e.code == c) ≤ 1) ∧
    (∀ (f : List (ProductData α)) (p : ProductData α) (c : String), p.code = c →
      isFavorite (addFavorite f p) c = true) ∧
    (∀ (f : List (ProductData α)) (c : String),
      isFavorite (removeFavorite f c) c = false) := by
  have hnil : UniqueCodes ([] : List (ProductData α)) := by simp [UniqueCodes]
  refine ⟨addFavorite_unique, removeFavorite_unique, addToHistory_unique, ?_, ?_, ?_, ?_⟩
  · intro ops c
    have h := favoritesRun_unique ops [] hnil
    exact ⟨h, h.countP_le_one c⟩
  · intro ops c
    have h := historyRun_unique ops [] hnil
    exact ⟨h, h.countP_le_one c⟩
  · intro f p c hc
    subst hc
    simp [isFavorite, addFavorite]
  · intro f c
    simp [isFavorite, removeFavorite]

/-- Witness of C12: adding "111" again to favorites that already hold "111" and "222"
leaves one entry per code, and "111" is then a favorite. -/
theorem unique_codes_invariant_witness :
    UniqueCodes [(⟨"111", (), 0⟩ : ProductData Unit), ⟨"222", (), 0⟩] ∧
    UniqueCodes (addFavorite [(⟨"111", (), 0⟩ : ProductData Unit), ⟨"222", (), 0⟩]
      ⟨"111", (), 5⟩) ∧
    isFavorite (addFavorite [(⟨"111", (), 0⟩ : ProductData Unit), ⟨"222", (), 0⟩]
      ⟨"111", (), 5⟩) "111" = true :=
  ⟨by simp [UniqueCodes],
    (unique_codes_invariant Unit).1 [⟨"111", (), 0⟩, ⟨"222", (), 0⟩] ⟨"111", (), 5⟩
      (by simp [UniqueCodes]),
    (unique_codes_invariant Unit).2.2.2.2.2.1 [⟨"111", (), 0⟩, ⟨"222", (), 0⟩]
      ⟨"111", (), 5⟩ "111" rfl⟩

/-! ## Failures of a fetch and what is stored -/

/-- On a miss or a stale entry `fetchProduct` runs its network part. -/
theorem fetchProduct_of_miss {π : Type} (cache : Cache π) (net : Network π)
    (now later : Int) (b : String)
    (hmiss : cache b = none ∨
      ∃ entry, cache b = some entry ∧ CACHE_DURATION ≤ now - entry.timestamp) :
    fetchProduct cache net now later b = fetchProduct.fromNetwork cache net later b := by
  rcases hmiss with hnone | ⟨entry, hsome, hstale⟩
  · simp [fetchProduct, hnone]
  · have hge : ¬ now - entry.timestamp < CACHE_DURATION := by omega
    simp [fetchProduct, hsome, hge]

/-- Whatever the cache, the network and the clock, a call either leaves the cache map as
it was or stores the product-carrying body of an ok response under the barcode. -/
theorem fetchProduct_cache_cases {π : Type} (cache : Cache π) (net : Network π)
    (now later : Int) (b : String) :
    (fetchProduct cache net now later b).cache = cache ∨
    ∃ response json, net (productUrl b) = Except.ok response ∧ response.ok = true ∧
      response.json = Except.ok (some json) ∧ json.product.isSome = true ∧
      (fetchProduct cache net now later b).value = Except.ok json ∧
      (fetchProduct cache net now later b).cache =
        cache.set b { data := json, timestamp := later } := by
  have hnet : (fetchProduct.fromNetwork cache net later b).cache = cache ∨
      ∃ response json, net (productUrl b) = Except.ok response ∧ response.ok = true ∧
        response.json = Except.ok (some json) ∧ json.product.isSome = true ∧
        (fetchProduct.fromNetwork cache net later b).value = Except.ok json ∧
        (fetchProduct.fromNetwork cache net later b).cache =
          cache.set b { data := json, timestamp := later } := by
    cases hn : net (productUrl b) with
    | error e => left; simp [fetchProduct.fromNetwork, hn]
    | ok response =>
      cases hok : response.ok with
      | false => left; simp [fetchProduct.fromNetwork, hn, hok]
      | true =>
        cases hj : response.json with
        | error e => left; simp [fetchProduct.fromNetwork, hn, hok, hj]
        | ok body =>
          cases body with
          | none => left; simp [fetchProduct.fromNetwork, hn, hok, hj]
          | some json =>
            cases hp : json.product with
            | none => left; simp [fetchProduct.fromNetwork, hn, hok, hj, hp]
            | some x =>
              right
              exact ⟨response, json, rfl, hok, hj, by simp [hp],
                by simp [fetchProduct.fromNetwork, hn, hok, hj, hp],
                by simp [fetchProduct.fromNetwork, hn, hok, hj, hp]⟩
  unfold fetchProduct
  cases hcb : cache b with
  | none => simpa using hnet
  | some cached =>
    by_cases hlt : now - cached.timestamp < CACHE_DURATION
    · left; simp [hlt]
    · simpa [hlt] using hnet

/-- C13. On a cache miss or a stale entry, with the network answering `response`:
when the response is not ok `fetchProduct` fails with 'API_ERROR'; when it is ok and the
body is null or has no product it fails with 'NOT_FOUND', a different error; in both
cases the cache map is what it was.  When the response is ok and carries a product the
call returns the body and stores `{data, timestamp: later}` under the barcode, replacing
what was there and leaving every other barcode alone.  In no other case, hit or miss,
does a call change the cache map. -/
theorem fetchProduct_failures {π : Type} (cache : Cache π) (net : Network π)
    (now later : Int) (b : String) (response : Response π)
    (hmiss : cache b = none ∨
      ∃ entry, cache b = some entry ∧ CACHE_DURATION ≤ now - entry.timestamp)
    (hnet : net (productUrl b) = Except.ok response) :
    (response.ok = false →
      (fetchProduct cache net now later b).value = Except.error "API_ERROR" ∧
      (fetchProduct cache net now later b).cache = cache) ∧
    (response.ok = true →
      (response.json = Except.ok none ∨
        ∃ json, response.json = Except.ok (some json) ∧ json.product = none) →
      (fetchProduct cache net now later b).value = Except.error "NOT_FOUND" ∧
      (fetchProduct cache net now later b).cache = cache) ∧
    ("API_ERROR" : String) ≠ "NOT_FOUND" ∧
    (∀ json, response.ok = true → response.json = Except.ok (some json) →
      json.product.isSome = true →
      (fetchProduct cache net now later b).value = Except.ok json ∧
      (fetchProduct cache net now later b).cache b =
        some { data := json, timestamp := later } ∧
      ∀ b2, b2 ≠ b → (fetchProduct cache net now later b).cache b2 = cache b2) ∧
    (∀ (cache2 : Cache π) (net2 : Network π) (now2 later2 : Int) (b2 : String),
      (fetchProduct cache2 net2 now2 later2 b2).cache ≠ cache2 →
      ∃ response2 json, net2 (productUrl b2) = Except.ok response2 ∧
        response2.ok = true ∧ response2.json = Except.ok (some json) ∧
        json.product.isSome = true ∧
        (fetchProduct cache2 net2 now2 later2 b2).cache =
          cache2.set b2 { data := json, timestamp := later2 }) := by
  have h0 := fetchProduct_of_miss cache net now later b hmiss
  refine ⟨?_, ?_, by decide, ?_, ?_⟩
  · intro hok
    rw [h0]
    simp [fetchProduct.fromNetwork, hnet, hok]
  · intro hok hbody
    rw [h0]
    rcases hbody with hnull | ⟨json, hj, hp⟩
    · simp [fetchProduct.fromNetwork, hnet, hok, hnull]
    · simp [fetchProduct.fromNetwork, hnet, hok, hj, hp]
  · intro json hok hj hp
    obtain ⟨x, hx⟩ := Option.isSome_iff_exists.1 hp
    rw [h0]
    refine ⟨by simp [fetchProduct.fromNetwork, hnet, hok, hj, hx],
      by simp [fetchProduct.fromNetwork, hnet, hok, hj, hx, Cache.set], ?_⟩
    intro b2 hb2
    simp [fetchProduct.fromNetwork, hnet, hok, hj, hx, Cache.set, hb2]
  · intro cache2 net2 now2 later2 b2 hne
    rcases fetchProduct_cache_cases cache2 net2 now2 later2 b2 with hsame | hstore
    · exact absurd hsame hne
    · obtain ⟨response2, json, h1, h2, h3, h4, _, h6⟩ := hstore
      exact ⟨response2, json, h1, h2, h3, h4, h6⟩

/-- Witness of C13: with an empty cache, a response that is not ok gives 'API_ERROR' and
leaves the cache empty. -/
theorem fetchProduct_failures_witness :
    (fetchProduct (fun _ => none) (fun _ => Except.ok ⟨false, Except.ok none⟩) 10 11
      "123" : FetchResult Unit).value = Except.error "API_ERROR" ∧
    (fetchProduct (fun _ => none) (fun _ => Except.ok ⟨false, Except.ok none⟩) 10 11
      "123" : FetchResult Unit).cache = (fun _ => none) :=
  (fetchProduct_failures (fun _ => none) (fun _ => Except.ok ⟨false, Except.ok none⟩)
    10 11 "123" ⟨false, Except.ok none⟩ (Or.inl rfl) rfl).1 rfl

/-! ## Default rule and additive tags -/

/-- C4. With the text "water, salt", no labels and the additive list ["en:e1200"], the
lower-cased text contains no entry of `HARAM_KEYWORDS` or `DOUBTFUL_KEYWORDS`, no label
matches the vegan pattern, and no additive tag has an upper-cased trailing token in
`HARMFUL_E`; the verdict is "halal" with confidence "medium" and the last reason is
"No haram/doubtful markers detected", but the reasons are not that one-element list:
"Contains potentially harmful additives" stands in front of it. -/
theorem classifyHalal_default_extra_reason :
    (∀ k ∈ HARAM_KEYWORDS,
      ¬ k.data <:+: (asciiHost.toLowerCase (orEmpty (some "water, salt"))).data) ∧
    (∀ k ∈ DOUBTFUL_KEYWORDS,
      ¬ k.data <:+: (asciiHost.toLowerCase (orEmpty (some "water, salt"))).data) ∧
    (∀ l ∈ ([] : List String), veganTest asciiHost l = false) ∧
    (∀ a ∈ ["en:e1200"], ∀ tok : String, IsTrailingToken a.data tok.data →
      asciiHost.toUpperCase tok ∉ HARMFUL_E) ∧
    extractHarmfulAdditives asciiHost (some ["en:e1200"]) = [] ∧
    classifyHalal asciiHost (some "water, salt") [] ["en:e1200"] =
      { verdict := "halal",
        reasons := ["Contains potentially harmful additives",
          "No haram/doubtful markers detected"],
        confidence := "medium" } ∧
    (classifyHalal asciiHost (some "water, salt") [] ["en:e1200"]).reasons.getLast? =
      some "No haram/doubtful markers detected" ∧
    (classifyHalal asciiHost (some "water, salt") [] ["en:e1200"]).reasons ≠
      ["No haram/doubtful markers detected"] := by
  refine ⟨by decide, by decide, by simp, ?_, by decide, by decide, by decide, by decide⟩
  intro a ha tok htok hmem
  have ha2 : a = "en:e1200" := by simpa using ha
  subst ha2
  have hcode : tagCode asciiHost "en:e1200" = some (asciiHost.toUpperCase tok) :=
    (tagCode_eq_some_iff asciiHost "en:e1200" (asciiHost.toUpperCase tok)).2 ⟨tok, htok, rfl⟩
  have heval : tagCode asciiHost "en:e1200" = some "E1200" := by decide
  rw [heval] at hcode
  have htok2 : asciiHost.toUpperCase tok = "E1200" := (Option.some.inj hcode).symm
  rw [htok2] at hmem
  exact absurd hmem (by decide)

end HalalCheck
